import Mathlib

/-!
Shallow embedding of `packages/cpp/src/browser/cpp-build-configurations.ts`
(class `CppBuildConfigurationManagerImpl` and the module-level helpers).

JavaScript `Map<string, CppBuildConfiguration | undefined>` is modelled as an
association list in insertion order: `set` replaces the first entry with the
key in place (keeping its position) or appends a fresh entry at the end, and
`get` returns the first entry's value, `undefined` (here `none`) when the key
is missing.  Exceptions (the `tryGetRoots()[0].uri` dereference throwing on an
empty root list) are modelled with `Except Unit`.  The two event emitters are
modelled as lists of past emissions, most recent first.  `localeCompare` is an
arbitrary integer-valued comparison carried in the state.
-/

namespace CppBuild

/-- Modelled from the spec: `CppBuildConfiguration` is declared in
`common/cpp-build-configuration-protocol.ts`, which is not part of the given
sources.  Per the spec it is a flat record of a `name` string, a `directory`
string, and an optional opaque `commands` reference compared by identity; the
reference is modelled as a `Nat` token so that `===` is equality of tokens. -/
structure CppBuildConfiguration where
  name : String
  directory : String
  commands : Option Nat
deriving DecidableEq, Repr

/-- Module-level `equals` (full equality): `name`, `directory` and the
`commands` reference must all match. -/
def equals (a b : CppBuildConfiguration) : Bool :=
  a.name == b.name && a.directory == b.directory && a.commands == b.commands

/-- Method `CppBuildConfigurationManagerImpl.equals` (revalidation equality):
only `name` and `directory` must match. -/
def implEquals (a b : CppBuildConfiguration) : Bool :=
  a.name == b.name && a.directory == b.directory

/-- Entry list of a JS `Map<string, CppBuildConfiguration | undefined>`. -/
abbrev JSMap := List (String × Option CppBuildConfiguration)

/-- JS `Map.prototype.set`: replace the first entry with this key in place,
else append at the end. -/
def jsSet (m : JSMap) (k : String) (v : Option CppBuildConfiguration) : JSMap :=
  match m with
  | [] => [(k, v)]
  | (a, b) :: rest => if a = k then (k, v) :: rest else (a, b) :: jsSet rest k v

/-- JS `Map.prototype.get` seen as `Option (Option _)`: outer `none` means the
key is missing, `some none` means the key is present holding `undefined`. -/
def jsGet (m : JSMap) (k : String) : Option (Option CppBuildConfiguration) :=
  match m with
  | [] => none
  | (a, b) :: rest => if a = k then some b else jsGet rest k

/-- Lookup in a compacted list of `(root, config)` pairs (a JS
`Map<string, CppBuildConfiguration>`). -/
def pairsLookup (m : List (String × CppBuildConfiguration)) (k : String) :
    Option CppBuildConfiguration :=
  match m with
  | [] => none
  | (a, b) :: rest => if a = k then some b else pairsLookup rest k

/-- Lines 242-247: the compacted view built inside `setActiveConfig`, keeping
only entries whose value is not `undefined`. -/
def compactConfigs (m : JSMap) : List (String × CppBuildConfiguration) :=
  m.filterMap (fun p => p.2.map (fun c => (p.1, c)))

/-- Record persisted under `ACTIVE_BUILD_CONFIGURATIONS_MAP_STORAGE_KEY`
(class `SavedActiveBuildConfigurations`): the spread `[...configs.entries()]`. -/
structure SavedActiveBuildConfigurations where
  configs : JSMap
deriving DecidableEq, Repr

/-- State of a `CppBuildConfigurationManagerImpl` instance together with its
collaborators: the workspace roots (`workspaceService.tryGetRoots()` URIs),
the preference store contents, the persisted storage slot, the
`localeCompare` comparison, and the two emitters' emission histories
(most recent first). -/
structure ManagerState where
  roots : List String
  activeConfigs : JSMap
  storage : Option SavedActiveBuildConfigurations
  prefsGlobal : Option (List CppBuildConfiguration)
  prefsByRoot : String → List CppBuildConfiguration
  localeCompare : String → String → Int
  events1 : List (Option CppBuildConfiguration)
  events2 : List (List (String × CppBuildConfiguration))

/-- Root resolution `root ? root : this.workspaceService.tryGetRoots()[0].uri`
shared by `getActiveConfig` and `setActiveConfig`.  An empty-string `root` is
falsy in JS, so it also falls back to the first workspace root; `none` means
the dereference `[0].uri` throws because no roots exist. -/
def resolveRoot (roots : List String) (root : Option String) : Option String :=
  match root with
  | some r => if r = "" then roots.head? else some r
  | none => roots.head?

/-- Lines 226-230: `getActiveConfig`.  `Except.error` models the `TypeError`
thrown by `tryGetRoots()[0].uri` when the root list is empty; the payload is
`activeConfigs.get(workspaceRoot)`, which flattens a present-but-`undefined`
entry and a missing entry into the same `undefined`. -/
def getActiveConfig (st : ManagerState) (root : Option String) :
    Except Unit (Option CppBuildConfiguration) :=
  match resolveRoot st.roots root with
  | none => .error ()
  | some w => .ok (jsGet st.activeConfigs w).join

/-- Lines 232-234: `getAllActiveConfigs` returns the backing map itself. -/
def getAllActiveConfigs (st : ManagerState) : JSMap :=
  st.activeConfigs

/-- Lines 197-201: `saveActiveConfiguration` serializes the whole map as the
spread of its entries. -/
def saveActiveConfiguration (m : JSMap) : SavedActiveBuildConfigurations :=
  ⟨m⟩

/-- Lines 236-251: `setActiveConfig`.  Resolve the root (which may throw),
replace that single map entry, write the serialized full map through to
storage, then fire the multi-root emitter with the compacted view and the
legacy emitter with the raw `config`. -/
def setActiveConfig (st : ManagerState) (config : Option CppBuildConfiguration)
    (root : Option String) : Except Unit ManagerState :=
  match resolveRoot st.roots root with
  | none => .error ()
  | some w =>
    let m := jsSet st.activeConfigs w config
    .ok { st with
      activeConfigs := m
      storage := some (saveActiveConfiguration m)
      events2 := compactConfigs m :: st.events2
      events1 := config :: st.events1 }

/-- Lines 261-266: `getConfigs`.  A truthy `root` reads the per-root
preference value with default `[]`; otherwise
`this.cppPreferences[KEY] || []` is read (an absent value yields `[]`). -/
def getConfigs (st : ManagerState) (root : Option String) :
    List CppBuildConfiguration :=
  match root with
  | some r => if r = "" then st.prefsGlobal.getD [] else st.prefsByRoot r
  | none => st.prefsGlobal.getD []

/-- Lines 268-272: `getValidConfigs` filters out entries with an empty `name`
or `directory` and sorts by `localeCompare` on `name` (JS `Array.sort` with a
consistent comparator, modelled by stable merge sort). -/
def getValidConfigs (st : ManagerState) (root : Option String) :
    List CppBuildConfiguration :=
  ((getConfigs st root).filter
      (fun a => a.name != "" && a.directory != "")).mergeSort
    (fun a b => st.localeCompare a.name b.name ≤ 0)

/-- Lines 206-214: `handlePreferencesUpdate`.  Read the default-root active
configuration (a throw propagates), check it against the default-root valid
list under revalidation equality, and clear it via `setActiveConfig(undefined)`
when it is missing or invalid. -/
def handlePreferencesUpdate (st : ManagerState) : Except Unit ManagerState :=
  match getActiveConfig st none with
  | .error e => .error e
  | .ok active =>
    let valid := match active with
      | some c => (getValidConfigs st none).any (fun a => implEquals a c)
      | none => false
    if valid then .ok st else setActiveConfig st none none

/-- JS `new Map(pairs)`: insert the pairs in order with `Map.set`. -/
def newMapFromEntries (ps : JSMap) : JSMap :=
  ps.foldl (fun m p => jsSet m p.1 p.2) []

/-- Lines 182-190: `loadActiveConfiguration` reads the storage slot and, when
a snapshot exists, replaces the in-memory map wholesale with
`new Map(savedConfig.configs)`. -/
def loadActiveConfiguration (st : ManagerState) : ManagerState :=
  match st.storage with
  | some saved => { st with activeConfigs := newMapFromEntries saved.configs }
  | none => st

end CppBuild

namespace CppBuild

/-- Sample configuration used by concrete witnesses. -/
def sampleConfig : CppBuildConfiguration := ⟨"debug", "/d", some 1⟩

/-- Sample manager state with one workspace root and empty everything else. -/
def baseState : ManagerState where
  roots := ["file:///a"]
  activeConfigs := []
  storage := none
  prefsGlobal := none
  prefsByRoot := fun _ => []
  localeCompare := fun _ _ => 0
  events1 := []
  events2 := []

/-- Sample state with `sampleConfig` active at the only root. -/
def stateA : ManagerState :=
  { baseState with activeConfigs := [("file:///a", some sampleConfig)] }

/-- Sample state with no workspace roots at all. -/
def emptyRootsState : ManagerState := { baseState with roots := [] }

/-- Sample persisted entry list with one present and one absent entry. -/
def sampleMap : JSMap := [("file:///a", some sampleConfig), ("file:///b", none)]

/-- Sample state as left by `setActiveConfig (some sampleConfig)` at the
sample root from `baseState`. -/
def stateB1 : ManagerState := { baseState with
  activeConfigs := [("file:///a", some sampleConfig)]
  storage := some (saveActiveConfiguration [("file:///a", some sampleConfig)])
  events2 := [[("file:///a", sampleConfig)]]
  events1 := [some sampleConfig] }

/-- Sample state as left by `setActiveConfig none` at the sample root from
`stateA`. -/
def stateA2 : ManagerState := { baseState with
  activeConfigs := [("file:///a", none)]
  storage := some (saveActiveConfiguration [("file:///a", none)])
  events2 := [[]]
  events1 := [none] }

end CppBuild

namespace CppBuild

/-- Setting a key then reading it back yields exactly the stored value. -/
theorem jsGet_jsSet_self (m : JSMap) (k : String)
    (v : Option CppBuildConfiguration) : jsGet (jsSet m k v) k = some v := by
  induction m with
  | nil => simp [jsSet, jsGet]
  | cons p rest ih =>
    obtain ⟨a, b⟩ := p
    by_cases h : a = k
    · simp [jsSet, jsGet, h]
    · simp [jsSet, jsGet, h, ih]

/-- Setting one key leaves the lookup of any other key unchanged. -/
theorem jsGet_jsSet_ne (m : JSMap) (k k2 : String)
    (v : Option CppBuildConfiguration) (h : k2 ≠ k) :
    jsGet (jsSet m k v) k2 = jsGet m k2 := by
  have hk : ¬k = k2 := fun hh => h hh.symm
  induction m with
  | nil => simp [jsSet, jsGet, hk]
  | cons p rest ih =>
    obtain ⟨a, b⟩ := p
    by_cases ha : a = k
    · subst ha
      simp [jsSet, jsGet, hk]
    · simp [jsSet, jsGet, ha, ih]

/-- Setting the same key to the same value twice equals setting it once. -/
theorem jsSet_idem (m : JSMap) (k : String)
    (v : Option CppBuildConfiguration) :
    jsSet (jsSet m k v) k v = jsSet m k v := by
  induction m with
  | nil => simp [jsSet]
  | cons p rest ih =>
    obtain ⟨a, b⟩ := p
    by_cases h : a = k
    · simp [jsSet, h]
    · simp [jsSet, h, ih]

/-- A key of `jsSet m k v` is a key of `m` or is `k`. -/
theorem mem_keys_jsSet (m : JSMap) (k x : String)
    (v : Option CppBuildConfiguration)
    (hx : x ∈ (jsSet m k v).map Prod.fst) :
    x ∈ m.map Prod.fst ∨ x = k := by
  induction m with
  | nil => simpa [jsSet] using hx
  | cons p rest ih =>
    obtain ⟨a, b⟩ := p
    by_cases h : a = k
    · subst h
      rw [show jsSet ((a, b) :: rest) a v = (a, v) :: rest by simp [jsSet]] at hx
      simp only [List.map_cons, List.mem_cons] at hx
      rcases hx with hx | hx
      · exact Or.inr hx
      · exact Or.inl (List.mem_cons_of_mem _ hx)
    · rw [show jsSet ((a, b) :: rest) k v = (a, b) :: jsSet rest k v by
          simp [jsSet, h]] at hx
      simp only [List.map_cons, List.mem_cons] at hx
      rcases hx with hx | hx
      · exact Or.inl (by simp [hx])
      · rcases ih hx with hh | hh
        · exact Or.inl (List.mem_cons_of_mem _ hh)
        · exact Or.inr hh

/-- `jsSet` preserves distinctness of the keys. -/
theorem nodup_keys_jsSet (m : JSMap) (k : String)
    (v : Option CppBuildConfiguration)
    (hnd : (m.map Prod.fst).Nodup) :
    ((jsSet m k v).map Prod.fst).Nodup := by
  induction m with
  | nil => simp [jsSet]
  | cons p rest ih =>
    obtain ⟨a, b⟩ := p
    simp only [List.map_cons, List.nodup_cons] at hnd
    by_cases h : a = k
    · subst h
      have hrw : jsSet ((a, b) :: rest) a v = (a, v) :: rest := by
        simp [jsSet]
      rw [hrw, List.map_cons, List.nodup_cons]
      exact hnd
    · have hrw : jsSet ((a, b) :: rest) k v = (a, b) :: jsSet rest k v := by
        simp [jsSet, h]
      rw [hrw, List.map_cons, List.nodup_cons]
      refine ⟨?_, ih hnd.2⟩
      intro hmem
      rcases mem_keys_jsSet rest k a v hmem with hh | hh
      · exact hnd.1 hh
      · exact h hh

/-- A key absent from the map is absent from its compacted view. -/
theorem pairsLookup_compact_of_not_mem (m : JSMap) (x : String)
    (hx : x ∉ m.map Prod.fst) :
    pairsLookup (compactConfigs m) x = none := by
  induction m with
  | nil => simp [compactConfigs, pairsLookup]
  | cons p rest ih =>
    obtain ⟨a, b⟩ := p
    simp only [List.map_cons, List.mem_cons, not_or] at hx
    cases b with
    | none => simpa [compactConfigs] using ih hx.2
    | some c =>
      have hax : ¬a = x := fun hh => hx.1 hh.symm
      have h1 : compactConfigs ((a, some c) :: rest)
          = (a, c) :: compactConfigs rest := by
        simp [compactConfigs]
      rw [h1]
      simp only [pairsLookup, if_neg hax]
      exact ih hx.2

/-- On a map with distinct keys, looking a root up in the compacted view
agrees with the flattened `Map.get` of the full map. -/
theorem pairsLookup_compact (m : JSMap) (k : String)
    (hnd : (m.map Prod.fst).Nodup) :
    pairsLookup (compactConfigs m) k = (jsGet m k).join := by
  induction m with
  | nil => simp [compactConfigs, pairsLookup, jsGet]
  | cons p rest ih =>
    obtain ⟨a, b⟩ := p
    simp only [List.map_cons, List.nodup_cons] at hnd
    cases b with
    | some c =>
      by_cases h : a = k
      · subst h
        simp [compactConfigs, pairsLookup, jsGet]
      · simpa [compactConfigs, pairsLookup, jsGet, h] using ih hnd.2
    | none =>
      by_cases h : a = k
      · subst h
        have := pairsLookup_compact_of_not_mem rest a hnd.1
        simpa [compactConfigs, jsGet] using this
      · simpa [compactConfigs, jsGet, h] using ih hnd.2

/-- Clearing a root whose flattened active value is already absent does not
change the compacted view. -/
theorem compact_jsSet_none (m : JSMap) (w : String)
    (h : (jsGet m w).join = none) :
    compactConfigs (jsSet m w none) = compactConfigs m := by
  induction m with
  | nil => simp [jsSet, compactConfigs]
  | cons p rest ih =>
    obtain ⟨a, b⟩ := p
    by_cases ha : a = w
    · subst ha
      have hb : b = none := by
        cases b with
        | none => rfl
        | some c => simp [jsGet] at h
      subst hb
      simp [jsSet, compactConfigs]
    · have h2 : (jsGet rest w).join = none := by
        simpa [jsGet, ha] using h
      cases b with
      | none => simpa [jsSet, ha, compactConfigs] using ih h2
      | some c => simpa [jsSet, ha, compactConfigs] using ih h2

/-- Setting a fresh key appends the entry at the end. -/
theorem jsSet_fresh (m : JSMap) (k : String)
    (v : Option CppBuildConfiguration) (hk : k ∉ m.map Prod.fst) :
    jsSet m k v = m ++ [(k, v)] := by
  induction m with
  | nil => simp [jsSet]
  | cons p rest ih =>
    obtain ⟨a, b⟩ := p
    simp only [List.map_cons, List.mem_cons, not_or] at hk
    have hak : ¬a = k := fun hh => hk.1 hh.symm
    simp [jsSet, hak, ih hk.2]

/-- Inserting pairs none of which uses key `k` keeps a leading `(k, v)` entry
in front. -/
theorem foldl_jsSet_cons (ps : JSMap) (m : JSMap) (k : String)
    (v : Option CppBuildConfiguration) (h : ∀ p ∈ ps, p.1 ≠ k) :
    ps.foldl (fun acc p => jsSet acc p.1 p.2) ((k, v) :: m)
      = (k, v) :: ps.foldl (fun acc p => jsSet acc p.1 p.2) m := by
  induction ps generalizing m with
  | nil => simp
  | cons q rest ih =>
    obtain ⟨a, b⟩ := q
    have ha : a ≠ k := h (a, b) (by simp)
    have hrest : ∀ p ∈ rest, p.1 ≠ k := fun p hp => h p (by simp [hp])
    have hka : ¬k = a := fun hh => ha hh.symm
    simp only [List.foldl_cons]
    rw [show jsSet ((k, v) :: m) a b = (k, v) :: jsSet m a b by
          simp [jsSet, hka]]
    exact ih (jsSet m a b) hrest

/-- Rebuilding a map from its own entry list with distinct keys reproduces it
exactly. -/
theorem newMapFromEntries_eq (m : JSMap) (hnd : (m.map Prod.fst).Nodup) :
    newMapFromEntries m = m := by
  induction m with
  | nil => simp [newMapFromEntries]
  | cons p rest ih =>
    obtain ⟨k, v⟩ := p
    simp only [List.map_cons, List.nodup_cons] at hnd
    have hrest : ∀ q ∈ rest, q.1 ≠ k := by
      intro q hq hqk
      exact hnd.1 (by simpa [hqk] using List.mem_map_of_mem Prod.fst hq)
    have : newMapFromEntries ((k, v) :: rest)
        = (k, v) :: newMapFromEntries rest := by
      simp only [newMapFromEntries, List.foldl_cons, jsSet]
      exact foldl_jsSet_cons rest [] k v hrest
    rw [this, ih hnd.2]

end CppBuild


namespace CppBuild

/-- C1: immediately after `setActiveConfig(c, r)` returns, `getActiveConfig(r)`
yields exactly `c` and `getAllActiveConfigs()` has root `r` mapped to `c`;
nothing here waits on the persistence write, which only updated the storage
slot. -/
theorem C1_set_then_get (st : ManagerState) (c : CppBuildConfiguration)
    (r : String) (hr : r ≠ "") :
    ∃ st', setActiveConfig st (some c) (some r) = .ok st'
      ∧ getActiveConfig st' (some r) = .ok (some c)
      ∧ jsGet (getAllActiveConfigs st') r = some (some c) := by
  have hres : resolveRoot st.roots (some r) = some r := by
    simp [resolveRoot, hr]
  refine ⟨{ st with
      activeConfigs := jsSet st.activeConfigs r (some c)
      storage := some (saveActiveConfiguration
        (jsSet st.activeConfigs r (some c)))
      events2 := compactConfigs (jsSet st.activeConfigs r (some c))
        :: st.events2
      events1 := some c :: st.events1 }, ?_, ?_, ?_⟩
  · simp [setActiveConfig, hres]
  · simp [getActiveConfig, resolveRoot, hr, jsGet_jsSet_self]
  · simp [getAllActiveConfigs, jsGet_jsSet_self]

/-- C1 witness at a concrete state, configuration and root. -/
theorem C1_set_then_get_witness :
    ∃ st', setActiveConfig baseState (some sampleConfig) (some "file:///a")
        = .ok st'
      ∧ getActiveConfig st' (some "file:///a") = .ok (some sampleConfig)
      ∧ jsGet (getAllActiveConfigs st') "file:///a" = some (some sampleConfig) :=
  C1_set_then_get baseState sampleConfig "file:///a" (by decide)

/-- C4: with an empty workspace-root list and the root argument omitted, both
`getActiveConfig` and `setActiveConfig` evaluate `tryGetRoots()[0].uri` on an
empty array and throw (modelled as `Except.error`), instead of returning
absent or being a no-op as the spec requires. -/
theorem C4_empty_roots_throw :
    getActiveConfig emptyRootsState none = .error ()
      ∧ setActiveConfig emptyRootsState none none = .error () := by
  constructor <;> rfl

/-- C6: reloading the persisted snapshot of any active-configuration map `M`
(a JS map, hence with distinct keys) reconstructs exactly `M`: the same entry
list, so the same roots, the same configurations under full equality, and
absent entries kept absent. -/
theorem C6_roundtrip (st : ManagerState) (M : JSMap)
    (hnd : (M.map Prod.fst).Nodup)
    (hst : st.storage = some (saveActiveConfiguration M)) :
    (loadActiveConfiguration st).activeConfigs = M
      ∧ ∀ k, jsGet (loadActiveConfiguration st).activeConfigs k = jsGet M k := by
  have h : (loadActiveConfiguration st).activeConfigs = M := by
    simp only [loadActiveConfiguration, hst, saveActiveConfiguration]
    exact newMapFromEntries_eq M hnd
  exact ⟨h, fun k => by rw [h]⟩

/-- C6 witness on a concrete two-entry map with one absent entry. -/
theorem C6_roundtrip_witness :
    (loadActiveConfiguration
        { baseState with storage := some (saveActiveConfiguration sampleMap) }
      ).activeConfigs = sampleMap
      ∧ ∀ k, jsGet (loadActiveConfiguration
          { baseState with
              storage := some (saveActiveConfiguration sampleMap) }
        ).activeConfigs k = jsGet sampleMap k :=
  C6_roundtrip _ sampleMap (by decide) rfl

/-- C8: setting the active configuration at root `r` fully replaces only the
entry at `r`; the entry of any other root `r2`, whether present, absent or
missing, is untouched. -/
theorem C8_frame (st : ManagerState) (c : Option CppBuildConfiguration)
    (r r2 : String) (hr : r ≠ "") (hne : r2 ≠ r) :
    ∃ st', setActiveConfig st c (some r) = .ok st'
      ∧ jsGet st'.activeConfigs r2 = jsGet st.activeConfigs r2
      ∧ jsGet st'.activeConfigs r = some c := by
  have hres : resolveRoot st.roots (some r) = some r := by
    simp [resolveRoot, hr]
  refine ⟨{ st with
      activeConfigs := jsSet st.activeConfigs r c
      storage := some (saveActiveConfiguration (jsSet st.activeConfigs r c))
      events2 := compactConfigs (jsSet st.activeConfigs r c) :: st.events2
      events1 := c :: st.events1 }, ?_, ?_, ?_⟩
  · simp [setActiveConfig, hres]
  · simpa using jsGet_jsSet_ne st.activeConfigs r r2 c hne
  · simpa using jsGet_jsSet_self st.activeConfigs r c

/-- C8 witness at two concrete distinct roots. -/
theorem C8_frame_witness :
    ∃ st', setActiveConfig stateA (some sampleConfig) (some "file:///b")
        = .ok st'
      ∧ jsGet st'.activeConfigs "file:///a"
          = jsGet stateA.activeConfigs "file:///a"
      ∧ jsGet st'.activeConfigs "file:///b" = some (some sampleConfig) :=
  C8_frame stateA (some sampleConfig) "file:///b" "file:///a" (by decide)
    (by decide)

/-- C9: module-level `equals` is full equality on name, directory and the
commands reference, the method `equals` (here `implEquals`) is revalidation
equality on name and directory only, full equality implies revalidation
equality, and configurations differing only in `commands` are
revalidation-equal but not fully equal. -/
theorem C9_two_equalities (a b : CppBuildConfiguration) :
    (equals a b = true
      ↔ (a.name = b.name ∧ a.directory = b.directory
          ∧ a.commands = b.commands))
    ∧ (implEquals a b = true ↔ (a.name = b.name ∧ a.directory = b.directory))
    ∧ (equals a b = true → implEquals a b = true)
    ∧ ((a.name = b.name ∧ a.directory = b.directory
          ∧ a.commands ≠ b.commands)
        → (implEquals a b = true ∧ equals a b = false)) := by
  refine ⟨?_, ?_, ?_, ?_⟩
  · simp [equals, and_assoc]
  · simp [implEquals]
  · intro h
    simp only [equals, Bool.and_eq_true, beq_iff_eq] at h
    simp [implEquals, h.1.1, h.1.2]
  · rintro ⟨h1, h2, h3⟩
    constructor
    · simp [implEquals, h1, h2]
    · simp [equals, h1, h2, h3]

/-- C9 witness: two configurations sharing name and directory but holding
different commands references. -/
theorem C9_two_equalities_witness :
    implEquals ⟨"debug", "/d", some 1⟩ ⟨"debug", "/d", some 2⟩ = true
      ∧ equals ⟨"debug", "/d", some 1⟩ ⟨"debug", "/d", some 2⟩ = false :=
  (C9_two_equalities ⟨"debug", "/d", some 1⟩ ⟨"debug", "/d", some 2⟩).2.2.2
    (by simp)

end CppBuild

namespace CppBuild

/-- C7: a second identical `setActiveConfig(c, r)` call leaves the
active-configuration map exactly as after the first call, yet each of the two
calls pushes one emission on both notification streams. -/
theorem C7_idempotent_map_double_fire (st st1 : ManagerState)
    (c : Option CppBuildConfiguration) (root : Option String)
    (h : setActiveConfig st c root = .ok st1) :
    ∃ st2, setActiveConfig st1 c root = .ok st2
      ∧ st2.activeConfigs = st1.activeConfigs
      ∧ st1.events1 = c :: st.events1
      ∧ st1.events2 = compactConfigs st1.activeConfigs :: st.events2
      ∧ st2.events1 = c :: st1.events1
      ∧ st2.events2 = compactConfigs st2.activeConfigs :: st1.events2 := by
  cases hres : resolveRoot st.roots root with
  | none => simp [setActiveConfig, hres] at h
  | some w =>
    simp only [setActiveConfig, hres, Except.ok.injEq] at h
    subst h
    refine ⟨{ st with
        activeConfigs := jsSet st.activeConfigs w c
        storage := some (saveActiveConfiguration (jsSet st.activeConfigs w c))
        events2 := compactConfigs (jsSet st.activeConfigs w c)
          :: compactConfigs (jsSet st.activeConfigs w c) :: st.events2
        events1 := c :: c :: st.events1 }, ?_, ?_, rfl, rfl, rfl, rfl⟩
    · simp [setActiveConfig, hres, jsSet_idem]
    · simp [jsSet_idem]

/-- C7 witness: setting `sampleConfig` at the sample root twice from the base
state. -/
theorem C7_idempotent_map_double_fire_witness :
    ∃ st2, setActiveConfig stateB1 (some sampleConfig) (some "file:///a")
        = .ok st2
      ∧ st2.activeConfigs = stateB1.activeConfigs
      ∧ stateB1.events1 = some sampleConfig :: baseState.events1
      ∧ stateB1.events2
          = compactConfigs stateB1.activeConfigs :: baseState.events2
      ∧ st2.events1 = some sampleConfig :: stateB1.events1
      ∧ st2.events2 = compactConfigs st2.activeConfigs :: stateB1.events2 :=
  C7_idempotent_map_double_fire baseState stateB1 (some sampleConfig)
    (some "file:///a") rfl

end CppBuild

namespace CppBuild

/-- C5: every successful `setActiveConfig` call emits on the multi-root
stream the compacted map holding exactly the roots with a non-absent active
configuration; in particular clearing a root (`config = undefined`) removes
that root from the emitted map while `getAllActiveConfigs()` keeps the key
mapped to absent. -/
theorem C5_emission_exactly_nonabsent (st st' : ManagerState)
    (c : Option CppBuildConfiguration) (root : Option String)
    (hnd : (st.activeConfigs.map Prod.fst).Nodup)
    (h : setActiveConfig st c root = .ok st') :
    st'.events2 = compactConfigs (getAllActiveConfigs st') :: st.events2
    ∧ (∀ k, pairsLookup (compactConfigs (getAllActiveConfigs st')) k
        = (jsGet (getAllActiveConfigs st') k).join)
    ∧ (∀ A, c = none → root = some A → A ≠ "" →
        pairsLookup (compactConfigs (getAllActiveConfigs st')) A = none
        ∧ jsGet (getAllActiveConfigs st') A = some none) := by
  cases hres : resolveRoot st.roots root with
  | none => simp [setActiveConfig, hres] at h
  | some w =>
    simp only [setActiveConfig, hres, Except.ok.injEq] at h
    subst h
    refine ⟨rfl, ?_, ?_⟩
    · intro k
      exact pairsLookup_compact _ k (nodup_keys_jsSet _ w c hnd)
    · intro A hc hroot hA
      subst hc
      subst hroot
      have hw : w = A := by
        simp only [resolveRoot, if_neg hA, Option.some.injEq] at hres
        exact hres.symm
      subst hw
      constructor
      · simp only [getAllActiveConfigs]
        rw [pairsLookup_compact _ w (nodup_keys_jsSet _ w none hnd)]
        simp [jsGet_jsSet_self]
      · simp [getAllActiveConfigs, jsGet_jsSet_self]

/-- C5 witness: clearing the sample root after `sampleConfig` was active
there. -/
theorem C5_emission_exactly_nonabsent_witness :
    stateA2.events2
        = compactConfigs (getAllActiveConfigs stateA2) :: stateA.events2
    ∧ (∀ k, pairsLookup (compactConfigs (getAllActiveConfigs stateA2)) k
        = (jsGet (getAllActiveConfigs stateA2) k).join)
    ∧ (∀ A, (none : Option CppBuildConfiguration) = none
        → (some "file:///a" : Option String) = some A → A ≠ "" →
        pairsLookup (compactConfigs (getAllActiveConfigs stateA2)) A = none
        ∧ jsGet (getAllActiveConfigs stateA2) A = some none) :=
  C5_emission_exactly_nonabsent stateA stateA2 none (some "file:///a")
    (by decide) rfl

/-- C10: when the preference source fires while nothing is active at the
default root, the handler still calls `setActiveConfig(undefined)`: the full
map is re-persisted and both streams fire (the legacy one with absence), even
though every root's observable active configuration, and the compacted map
itself, are unchanged. -/
theorem C10_refire_when_nothing_active (st : ManagerState) (w : String)
    (hw : resolveRoot st.roots none = some w)
    (hactive : getActiveConfig st none = .ok none) :
    ∃ st', handlePreferencesUpdate st = .ok st'
      ∧ st'.events1 = none :: st.events1
      ∧ st'.events2 = compactConfigs st.activeConfigs :: st.events2
      ∧ st'.storage = some (saveActiveConfiguration st'.activeConfigs)
      ∧ ∀ k, (jsGet st'.activeConfigs k).join
          = (jsGet st.activeConfigs k).join := by
  have hjoin : (jsGet st.activeConfigs w).join = none := by
    simpa [getActiveConfig, hw] using hactive
  refine ⟨{ st with
      activeConfigs := jsSet st.activeConfigs w none
      storage := some (saveActiveConfiguration (jsSet st.activeConfigs w none))
      events2 := compactConfigs (jsSet st.activeConfigs w none) :: st.events2
      events1 := none :: st.events1 }, ?_, rfl, ?_, rfl, ?_⟩
  · simp [handlePreferencesUpdate, hactive, setActiveConfig, hw]
  · simp [compact_jsSet_none st.activeConfigs w hjoin]
  · intro k
    by_cases hk : k = w
    · subst hk
      rw [jsGet_jsSet_self, hjoin]
      rfl
    · simp [jsGet_jsSet_ne st.activeConfigs w k none hk]

/-- C10 witness: a preference change on the base state, where nothing is
active at the only root. -/
theorem C10_refire_when_nothing_active_witness :
    ∃ st', handlePreferencesUpdate baseState = .ok st'
      ∧ st'.events1 = none :: baseState.events1
      ∧ st'.events2
          = compactConfigs baseState.activeConfigs :: baseState.events2
      ∧ st'.storage = some (saveActiveConfiguration st'.activeConfigs)
      ∧ ∀ k, (jsGet st'.activeConfigs k).join
          = (jsGet baseState.activeConfigs k).join :=
  C10_refire_when_nothing_active baseState "file:///a" rfl rfl

end CppBuild

namespace CppBuild

/-- C2: if configuration `c` is active at the default root `w` and a
preference-change notification fires while no entry of the default root's
valid-configuration list matches `c` by name and directory, then the active
configuration for the default root becomes absent, the legacy stream fires
with absence, and the multi-root stream fires a map with no entry for `w`. -/
theorem C2_revalidation_clears (st : ManagerState) (c : CppBuildConfiguration)
    (w : String)
    (hnd : (st.activeConfigs.map Prod.fst).Nodup)
    (hw : resolveRoot st.roots none = some w)
    (hactive : getActiveConfig st none = .ok (some c))
    (hgone : ∀ a ∈ getValidConfigs st none, implEquals a c = false) :
    ∃ st', handlePreferencesUpdate st = .ok st'
      ∧ getActiveConfig st' none = .ok none
      ∧ st'.events1 = none :: st.events1
      ∧ ∃ m2, st'.events2 = m2 :: st.events2 ∧ pairsLookup m2 w = none := by
  have hany : (getValidConfigs st none).any (fun a => implEquals a c)
      = false := by
    rw [List.any_eq_false]
    intro a ha
    simp [hgone a ha]
  refine ⟨{ st with
      activeConfigs := jsSet st.activeConfigs w none
      storage := some (saveActiveConfiguration (jsSet st.activeConfigs w none))
      events2 := compactConfigs (jsSet st.activeConfigs w none) :: st.events2
      events1 := none :: st.events1 }, ?_, ?_, rfl, ?_⟩
  · simp [handlePreferencesUpdate, hactive, hany, setActiveConfig, hw]
  · simp [getActiveConfig, hw, jsGet_jsSet_self]
  · refine ⟨_, rfl, ?_⟩
    rw [pairsLookup_compact _ w (nodup_keys_jsSet _ w none hnd)]
    simp [jsGet_jsSet_self]

/-- C2 witness: `sampleConfig` active at the sample root while the valid
configuration list is empty. -/
theorem C2_revalidation_clears_witness :
    ∃ st', handlePreferencesUpdate stateA = .ok st'
      ∧ getActiveConfig st' none = .ok none
      ∧ st'.events1 = none :: stateA.events1
      ∧ ∃ m2, st'.events2 = m2 :: stateA.events2
          ∧ pairsLookup m2 "file:///a" = none :=
  C2_revalidation_clears stateA sampleConfig "file:///a" (by decide) rfl rfl
    (by
      intro a ha
      simp [getValidConfigs, getConfigs, stateA, baseState] at ha)

end CppBuild

namespace CppBuild

/-- C3: for any raw configuration list behind any root (any ordering,
duplicates, blank fields), `getValidConfigs` returns only entries whose name
and directory are both non-empty, and its output is sorted ascending under
the locale comparison of names, provided that comparison is transitive and
total as a real locale comparison is. -/
theorem C3_validity_filter (st : ManagerState) (root : Option String)
    (htr : ∀ a b c : String, st.localeCompare a b ≤ 0 →
      st.localeCompare b c ≤ 0 → st.localeCompare a c ≤ 0)
    (hto : ∀ a b : String,
      st.localeCompare a b ≤ 0 ∨ st.localeCompare b a ≤ 0) :
    (∀ a ∈ getValidConfigs st root, a.name ≠ "" ∧ a.directory ≠ "")
    ∧ (getValidConfigs st root).Sorted
        (fun a b => st.localeCompare a.name b.name ≤ 0) := by
  constructor
  · intro a ha
    have h1 : a ∈ (getConfigs st root).filter
        (fun a => a.name != "" && a.directory != "") :=
      List.mem_mergeSort.mp ha
    have h2 := (List.mem_filter.mp h1).2
    simp only [Bool.and_eq_true, bne_iff_ne] at h2
    exact h2
  · have trans2 : ∀ a b c : CppBuildConfiguration,
        (fun a b : CppBuildConfiguration =>
          decide (st.localeCompare a.name b.name ≤ 0)) a b →
        (fun a b : CppBuildConfiguration =>
          decide (st.localeCompare a.name b.name ≤ 0)) b c →
        (fun a b : CppBuildConfiguration =>
          decide (st.localeCompare a.name b.name ≤ 0)) a c := by
      intro a b c h1 h2
      simp only [decide_eq_true_eq] at h1 h2 ⊢
      exact htr _ _ _ h1 h2
    have total2 : ∀ a b : CppBuildConfiguration,
        ((fun a b : CppBuildConfiguration =>
            decide (st.localeCompare a.name b.name ≤ 0)) a b
          || (fun a b : CppBuildConfiguration =>
            decide (st.localeCompare a.name b.name ≤ 0)) b a) = true := by
      intro a b
      simp only [Bool.or_eq_true, decide_eq_true_eq]
      exact hto _ _
    have hs := List.sorted_mergeSort trans2 total2
      ((getConfigs st root).filter
        (fun a => a.name != "" && a.directory != ""))
    exact hs.imp (by
      intro a b h
      simpa using h)

/-- C3 witness: the base state, whose comparison function is constantly zero
and hence transitive and total. -/
theorem C3_validity_filter_witness :
    (∀ a ∈ getValidConfigs baseState none, a.name ≠ "" ∧ a.directory ≠ "")
    ∧ (getValidConfigs baseState none).Sorted
        (fun a b => baseState.localeCompare a.name b.name ≤ 0) :=
  C3_validity_filter baseState none (fun _ _ _ h1 _ => h1)
    (fun a b => Or.inl (by simp [baseState]))

end CppBuild
